import Mathlib

/-!
Verification development for the intersection/guidance core of an OSRM-style
routing engine.  The definitions below are shallow embeddings of:

* include/extractor/guidance/intersection.hpp (data model, findClosestTurn,
  getHighestConnectedLaneCount, IntersectionView::valid)
* include/engine/guidance/toolkit.hpp (angleToDirectionModifier,
  forEachRoundabout, lane partition helpers)

Angles (C++ double) are modelled as rationals; all comparisons performed by
the code are exact order comparisons, which ℚ models faithfully.  Machine
integers (LaneID = uint8) are modelled as Nat with explicit reduction
modulo 2^8 where the code narrows or wraps.
-/

/-- Models EdgeID from util/typedefs.hpp (an integral edge identifier). -/
abbrev EdgeID := Nat

/-- Models LaneDataID from util/typedefs.hpp (an integral lane-data identifier). -/
abbrev LaneDataID := Nat

/-- The shape of an intersection only knows about edge IDs and bearings
(intersection.hpp, struct IntersectionShapeData). -/
structure IntersectionShapeData where
  eid : EdgeID
  bearing : ℚ
  segment_length : ℚ
deriving DecidableEq, Repr

/-- Shape plus entry legality and the turn angle relative to the incoming edge
(intersection.hpp, struct IntersectionViewData). -/
structure IntersectionViewData extends IntersectionShapeData where
  entry_allowed : Bool
  angle : ℚ
deriving DecidableEq, Repr

/-- Modelled from the spec: DirectionModifier::Enum of
extractor/guidance/turn_instruction.hpp, which is not part of the excerpt.
The spec names Right, Straight, Left, U-turn and speaks of exchanging every
Left-flavored modifier with its Right counterpart, so the sharp/slight
flavors are included. -/
inductive DirectionModifier where
  | UTurn
  | SharpRight
  | Right
  | SlightRight
  | Straight
  | SlightLeft
  | Left
  | SharpLeft
deriving DecidableEq, Repr

/-- Modelled from the spec: TurnInstruction of
extractor/guidance/turn_instruction.hpp (not part of the excerpt): a turn
type together with a direction modifier.  The turn type is never inspected
by the excerpted code, so it is kept as an abstract tag. -/
structure TurnInstruction where
  type : Nat
  direction_modifier : DirectionModifier
deriving DecidableEq, Repr

/-- A connected road: view data plus the assigned instruction and a weak
reference into the lane-description table (intersection.hpp,
struct ConnectedRoad). -/
structure ConnectedRoad extends IntersectionViewData where
  instruction : TurnInstruction
  lane_data_id : LaneDataID
deriving DecidableEq, Repr

/-- Modelled from the spec: util::guidance::angularDeviation
(util/guidance/toolkit.hpp, not part of the excerpt); the spec describes it
as the minimal absolute circular distance between two angles in [0, 360). -/
def angularDeviation (angle from_angle : ℚ) : ℚ :=
  min |angle - from_angle| (360 - |angle - from_angle|)

/-- Strict lexicographic comparison of (excluded?, deviation) keys; this is
what std::tie(filtered_lhs, deviation_lhs) < std::tie(filtered_rhs,
deviation_rhs) computes in findClosestTurn, with false < true on bool. -/
def lexLt (a b : Bool × ℚ) : Prop :=
  (a.1 = false ∧ b.1 = true) ∨ (a.1 = b.1 ∧ a.2 < b.2)

instance instDecidableLexLt (a b : Bool × ℚ) : Decidable (lexLt a b) := by
  unfold lexLt
  infer_instance

/-- One comparison step of std::min_element: the running best is replaced
exactly when the comparator judges the new element strictly smaller. -/
def minStep (lt : α → α → Bool) (best y : α) : α :=
  if lt y best then y else best

/-- std::min_element over a sequence: none on an empty range (the past-the-end
iterator), otherwise the first element attaining the minimum. -/
def minElement? (lt : α → α → Bool) : List α → Option α
  | [] => none
  | x :: xs => some (xs.foldl (minStep lt) x)

/-- The comparator of intersection_helpers::findClosestTurn
(intersection.hpp lines 175-179). -/
def turnCmp (angle : ℚ) (filter : ConnectedRoad → Bool) (lhs rhs : ConnectedRoad) : Bool :=
  decide (lexLt (filter lhs, angularDeviation lhs.angle angle)
                (filter rhs, angularDeviation rhs.angle angle))

/-- intersection_helpers::findClosestTurn (intersection.hpp lines 167-184).
The outer Option models the partiality of the unchecked dereference of the
min_element result: none is returned exactly when the container is empty and
the C++ code would dereference the past-the-end iterator.  The inner Option
models the returned iterator: none is the cend() sentinel. -/
def findClosestTurn (intersection : List ConnectedRoad) (angle : ℚ)
    (filter : ConnectedRoad → Bool) : Option (Option ConnectedRoad) :=
  match minElement? (turnCmp angle filter) intersection with
  | none => none
  | some candidate => some (if filter candidate then none else some candidate)

/-- intersection_helpers::getHighestConnectedLaneCount (intersection.hpp lines
188-209).  The node-based graph is abstracted as the map laneCount sending an
edge id to GetEdgeData(eid).road_classification.GetNumberOfLanes(); the
boost find_if over the transformed range with a predicate that always
returns false is a fold of max over all transformed values, started at 0. -/
def getHighestConnectedLaneCount (laneCount : EdgeID → Nat)
    (intersection : List ConnectedRoad) : Nat :=
  (intersection.map fun road => laneCount road.eid).foldl
    (fun max_lanes value => max max_lanes value) 0

/-- engine::guidance::angleToDirectionModifier (toolkit.hpp lines 21-33). -/
def angleToDirectionModifier (bearing : ℚ) : DirectionModifier :=
  if bearing < 135 then
    DirectionModifier.Right
  else if bearing ≤ 225 then
    DirectionModifier.Straight
  else
    DirectionModifier.Left

/-! ## forEachRoundabout (toolkit.hpp lines 41-65)

The C++ function is a template over the iterator element type; only the two
predicates entersRoundabout / leavesRoundabout of the step's instruction are
consulted (they live in turn_instruction.hpp, outside the excerpt), so the
embedding is parameterised over the element type and the two predicates.
A range [first, last) is a list; `fn` receives the closed range
[enter, leave] as a list, threads its state and is returned (fold
semantics).  The scan is modelled by two structurally recursive searches
mirroring the two std::find_if calls, plus the loop. -/

/-- The first std::find_if of forEachRoundabout: drop steps until one with
entersRoundabout is found, returning the suffix that starts at it; none when
the search reaches last. -/
def splitAtEnter (enters : α → Bool) : List α → Option (List α)
  | [] => none
  | x :: xs => if enters x then some (x :: xs) else splitAtEnter enters xs

/-- The second std::find_if of forEachRoundabout: starting at the enter
position, find the first step with leavesRoundabout, returning the closed
range up to and including it together with the remaining suffix (the steps
after the leave); none when the search reaches last. -/
def takeUntilLeave (leaves : α → Bool) : List α → Option (List α × List α)
  | [] => none
  | x :: xs =>
    if leaves x then
      some ([x], xs)
    else
      match takeUntilLeave leaves xs with
      | none => none
      | some (r, rest) => some (x :: r, rest)

theorem splitAtEnter_decompose {enters : α → Bool} {l l' : List α}
    (h : splitAtEnter enters l = some l') :
    ∃ g, l = g ++ l' ∧ ∀ z ∈ g, enters z = false := by
  induction l with
  | nil => simp [splitAtEnter] at h
  | cons x xs ih =>
    by_cases hx : enters x = true
    · refine ⟨[], ?_, by simp⟩
      simp [splitAtEnter, hx] at h
      simp [h]
    · simp only [splitAtEnter, hx] at h
      simp only [Bool.false_eq_true, if_false] at h
      obtain ⟨g, hg, hge⟩ := ih h
      refine ⟨x :: g, by simp [hg], ?_⟩
      intro z hz
      rcases List.mem_cons.1 hz with rfl | hz
      · simpa using hx
      · exact hge z hz

theorem splitAtEnter_length {enters : α → Bool} {l l' : List α}
    (h : splitAtEnter enters l = some l') : l'.length ≤ l.length := by
  obtain ⟨g, hg, -⟩ := splitAtEnter_decompose h
  subst hg
  simp

theorem takeUntilLeave_decompose {leaves : α → Bool} {l : List α} {r rest : List α}
    (h : takeUntilLeave leaves l = some (r, rest)) :
    l = r ++ rest ∧ ∃ r₀ y, r = r₀ ++ [y] ∧ leaves y = true ∧
      ∀ z ∈ r₀, leaves z = false := by
  induction l generalizing r rest with
  | nil => simp [takeUntilLeave] at h
  | cons x xs ih =>
    by_cases hx : leaves x = true
    · simp only [takeUntilLeave, hx, if_true, Option.some.injEq, Prod.mk.injEq] at h
      obtain ⟨rfl, rfl⟩ := h
      exact ⟨rfl, [], x, rfl, hx, by simp⟩
    · simp only [takeUntilLeave, hx, Bool.false_eq_true, if_false] at h
      cases htl : takeUntilLeave leaves xs with
      | none => rw [htl] at h; simp at h
      | some pr =>
        obtain ⟨r', rest'⟩ := pr
        rw [htl] at h
        simp only [Option.some.injEq, Prod.mk.injEq] at h
        obtain ⟨rfl, rfl⟩ := h
        obtain ⟨hxs, r₀, y, hr, hy, hr₀⟩ := ih htl
        refine ⟨by simp [hxs], x :: r₀, y, by simp [hr], hy, ?_⟩
        intro z hz
        rcases List.mem_cons.1 hz with rfl | hz
        · simpa using hx
        · exact hr₀ z hz

theorem takeUntilLeave_length {leaves : α → Bool} {l : List α} {r rest : List α}
    (h : takeUntilLeave leaves l = some (r, rest)) : rest.length < l.length := by
  obtain ⟨hl, r₀, y, hr, -, -⟩ := takeUntilLeave_decompose h
  subst hl
  subst hr
  simp
  omega

/-- engine::guidance::forEachRoundabout (toolkit.hpp lines 41-65): the while
loop that repeatedly finds an enter step, finds the first leave step at or
after it, breaks when either search fails, otherwise calls fn with the
closed range [enter, leave] and resumes right after the leave. -/
def forEachRoundabout {σ : Type} (enters leaves : α → Bool)
    (fn : σ → List α → σ) : List α → σ → σ
  | l, acc =>
    match h1 : splitAtEnter enters l with
    | none => acc
    | some l' =>
      match h2 : takeUntilLeave leaves l' with
      | none => acc
      | some (r, rest) => forEachRoundabout enters leaves fn rest (fn acc r)
termination_by l => l.length
decreasing_by
  calc rest.length < l'.length := takeUntilLeave_length h2
    _ ≤ l.length := splitAtEnter_length h1

/-- The sequence of closed [enter, leave] ranges that forEachRoundabout hands
to fn, in scan order. -/
def roundaboutRanges (enters leaves : α → Bool) (l : List α) : List (List α) :=
  match h1 : splitAtEnter enters l with
  | none => []
  | some l' =>
    match h2 : takeUntilLeave leaves l' with
    | none => []
    | some (r, rest) => r :: roundaboutRanges enters leaves rest
termination_by l.length
decreasing_by
  calc rest.length < l'.length := takeUntilLeave_length h2
    _ ≤ l.length := splitAtEnter_length h1

/-- The ranges are laid out left to right in the scanned list, pairwise
disjoint, each preceded by a gap containing no enter step; the scan resumes
immediately after each range. -/
def ScanDecomp (enters : α → Bool) : List α → List (List α) → Prop
  | _, [] => True
  | l, r :: rs => ∃ g t, l = g ++ r ++ t ∧ (∀ z ∈ g, enters z = false) ∧
      ScanDecomp enters t rs

/-! ## Lane partition helpers (toolkit.hpp lines 67-91)

LaneID is std::uint8_t (util/typedefs.hpp, outside the excerpt), so LaneID
values wrap modulo 2^8 = 256.  In `numLanesToTheLeft` the container size
(std::size_t) is narrowed to LaneID when initialising `total`, the
arithmetic itself is performed exactly in int after integral promotion of
the uint8 operands, and the result is reduced modulo 256 by the conversion
back to the LaneID return type. -/

/-- Modelled from the spec: the lane tuple stored on a step's intersection
(engine/guidance/route_step.hpp, outside the excerpt): the count of lanes
participating in the turn and the count of lanes to the right of the turn,
both LaneID (uint8) values. -/
structure LaneTuple where
  lanes_in_turn : Nat
  first_lane_from_the_right : Nat
deriving DecidableEq, Repr, Inhabited

/-- Modelled from the spec: the part of an intersection record on a RouteStep
consumed by the lane helpers (engine/guidance/route_step.hpp, outside the
excerpt): the lane tuple plus the left-to-right ordered lane description.
The per-lane turn indicators are never inspected, so they are abstract
tags. -/
structure StepIntersection where
  lanes : LaneTuple
  lane_description : List Nat
deriving DecidableEq, Repr, Inhabited

/-- Modelled from the spec: the part of engine::guidance::RouteStep consumed
by the lane helpers (route_step.hpp, outside the excerpt): the ordered list
of intersections passed on the step; the helpers only read front(). -/
structure RouteStep where
  intersections : List StepIntersection
deriving DecidableEq, Repr, Inhabited

/-- step.intersections.front(): the C++ dereference is undefined on an empty
vector; the embedding returns the default element there (every theorem about
the helpers assumes the first intersection is present). -/
def RouteStep.frontIntersection (step : RouteStep) : StepIntersection :=
  step.intersections.headI

/-- engine::guidance::numLanesToTheRight (toolkit.hpp lines 67-70). -/
def numLanesToTheRight (step : RouteStep) : Nat :=
  step.frontIntersection.lanes.first_lane_from_the_right

/-- engine::guidance::numLanesToTheLeft (toolkit.hpp lines 72-77):
`LaneID total = lane_description.size()` narrows the size modulo 256, the
subtraction `total - (lanes_in_turn + first_lane_from_the_right)` is exact
in int, and the conversion of the result back to LaneID reduces modulo
256. -/
def numLanesToTheLeft (step : RouteStep) : Nat :=
  (((step.frontIntersection.lane_description.length % 256 : Int) -
      ((step.frontIntersection.lanes.lanes_in_turn : Int) +
        (step.frontIntersection.lanes.first_lane_from_the_right : Int))) % 256).toNat

/-- engine::guidance::lanesToTheLeft (toolkit.hpp lines 79-84): the iterator
range [description.begin(), description.begin() + numLanesToTheLeft). -/
def lanesToTheLeft (step : RouteStep) : List Nat :=
  step.frontIntersection.lane_description.take (numLanesToTheLeft step)

/-- engine::guidance::lanesToTheRight (toolkit.hpp lines 86-91): the iterator
range [description.end() - numLanesToTheRight, description.end()). -/
def lanesToTheRight (step : RouteStep) : List Nat :=
  step.frontIntersection.lane_description.drop
    (step.frontIntersection.lane_description.length - numLanesToTheRight step)

/-! ## IntersectionView validity (intersection.hpp lines 109-120) -/

/-- Modelled from the spec: IntersectionViewData::CompareByAngle, declared in
intersection.hpp line 58 but implemented outside the excerpt; the spec fixes
the container invariant as sorted ascending by turn angle under this
comparator. -/
def IntersectionViewData.CompareByAngle (self other : IntersectionViewData) : Bool :=
  decide (self.angle < other.angle)

/-- std::is_sorted over a range with a strict comparator: true iff no
adjacent pair is out of order, i.e. comp(next, current) never holds. -/
def is_sorted (comp : α → α → Bool) : List α → Bool
  | [] => true
  | [_] => true
  | x :: y :: rest => !comp y x && is_sorted comp (y :: rest)

/-- An IntersectionView is an ordered sequence of view data
(intersection.hpp, struct IntersectionView). -/
abbrev IntersectionView := List IntersectionViewData

/-- IntersectionView::valid (intersection.hpp lines 113-116):
std::is_sorted over the elements under CompareByAngle. -/
def IntersectionView.valid (v : IntersectionView) : Bool :=
  is_sorted (fun lhs rhs => lhs.CompareByAngle rhs) v

/-! ## Mirroring (intersection.hpp lines 94-101) -/

/-- Modelled from the spec: the modifier exchange performed by
ConnectedRoad::mirror (declared in intersection.hpp line 98, implemented
outside the excerpt): every Left-flavored modifier is exchanged with its
Right counterpart and vice versa, Straight and U-turn are left unchanged. -/
def DirectionModifier.mirrorModifier : DirectionModifier → DirectionModifier
  | .UTurn => .UTurn
  | .SharpRight => .SharpLeft
  | .Right => .Left
  | .SlightRight => .SlightLeft
  | .Straight => .Straight
  | .SlightLeft => .SlightRight
  | .Left => .Right
  | .SharpLeft => .SharpRight

/-- Modelled from the spec: ConnectedRoad::mirror (declared in
intersection.hpp line 98, implemented outside the excerpt): reflects the
turn angle about the straight-ahead 180° axis (angle becomes 360 - angle)
and exchanges the instruction's direction modifier for its opposite-hand
counterpart; all other fields are unchanged. -/
def ConnectedRoad.mirror (road : ConnectedRoad) : ConnectedRoad :=
  { road with
    angle := 360 - road.angle,
    instruction := { road.instruction with
      direction_modifier := road.instruction.direction_modifier.mirrorModifier } }

/-- ConnectedRoad::getMirroredCopy (intersection.hpp lines 100-101). -/
def ConnectedRoad.getMirroredCopy (road : ConnectedRoad) : ConnectedRoad :=
  road.mirror

/-! ## Properties of the lexicographic key order -/

theorem lexLt_irrefl (a : Bool × ℚ) : ¬ lexLt a a := by
  rcases a with ⟨ab, aq⟩
  simp [lexLt]

theorem lexLt_trans {a b c : Bool × ℚ} (h1 : lexLt a b) (h2 : lexLt b c) : lexLt a c := by
  rcases a with ⟨ab, aq⟩
  rcases b with ⟨bb, bq⟩
  rcases c with ⟨cb, cq⟩
  simp only [lexLt] at h1 h2 ⊢
  cases ab <;> cases bb <;> cases cb <;> simp_all
  all_goals linarith

theorem lexLt_ext {a b c : Bool × ℚ} (h1 : lexLt a b) (h2 : ¬ lexLt c b) : lexLt a c := by
  rcases a with ⟨ab, aq⟩
  rcases b with ⟨bb, bq⟩
  rcases c with ⟨cb, cq⟩
  simp only [lexLt] at h1 h2 ⊢
  cases ab <;> cases bb <;> cases cb <;> simp_all
  all_goals linarith

/-! ## Behaviour of std::min_element

The three lemmas below characterise the fold performed by min_element over a
non-empty range [x :: xs]: the result is an element of the range, no element
of the range is strictly smaller, and the result is the earliest element of
the range attaining the minimum (every element strictly before it is
strictly greater).  They are stated for any comparator that is irreflexive,
transitive and extensional in the sense of lexLt_ext. -/

theorem minFold_mem (lt : α → α → Bool) (x : α) (xs : List α) :
    xs.foldl (minStep lt) x = x ∨ xs.foldl (minStep lt) x ∈ xs := by
  induction xs generalizing x with
  | nil => exact Or.inl rfl
  | cons y ys ih =>
    simp only [List.foldl_cons]
    rcases ih (minStep lt x y) with h | h
    · rw [h]
      unfold minStep
      split
      · exact Or.inr (List.mem_cons_self _ _)
      · exact Or.inl rfl
    · exact Or.inr (List.mem_cons_of_mem _ h)

theorem minFold_init (lt : α → α → Bool)
    (htrans : ∀ a b c, lt a b = true → lt b c = true → lt a c = true)
    (x : α) (xs : List α) :
    xs.foldl (minStep lt) x = x ∨ lt (xs.foldl (minStep lt) x) x = true := by
  induction xs generalizing x with
  | nil => exact Or.inl rfl
  | cons y ys ih =>
    simp only [List.foldl_cons]
    by_cases hyx : lt y x = true
    · rw [show minStep lt x y = y by simp [minStep, hyx]]
      rcases ih y with h | h
      · rw [h]; exact Or.inr hyx
      · exact Or.inr (htrans _ _ _ h hyx)
    · rw [show minStep lt x y = x by simp [minStep, hyx]]
      exact ih x

theorem minFold_not_lt (lt : α → α → Bool)
    (htrans : ∀ a b c, lt a b = true → lt b c = true → lt a c = true)
    (hirr : ∀ a, lt a a = false)
    (x : α) (xs : List α) :
    ∀ z, (z = x ∨ z ∈ xs) → lt z (xs.foldl (minStep lt) x) = false := by
  induction xs generalizing x with
  | nil =>
    rintro z (rfl | hz)
    · exact hirr z
    · simp at hz
  | cons y ys ih =>
    intro z hz
    simp only [List.foldl_cons]
    have hz' : z = x ∨ z = y ∨ z ∈ ys := by
      rcases hz with h | h
      · exact Or.inl h
      · rcases List.mem_cons.1 h with h | h
        · exact Or.inr (Or.inl h)
        · exact Or.inr (Or.inr h)
    by_cases hyx : lt y x = true
    · rw [show minStep lt x y = y by simp [minStep, hyx]]
      rcases hz' with heq | hzy
      · -- z = x: if x were below the final minimum we could chain to lt x x
        cases hxm : lt z (ys.foldl (minStep lt) y) with
        | false => rfl
        | true =>
          exfalso
          have hzx : lt z x = true := by
            rcases minFold_init lt htrans y ys with h | h
            · rw [h] at hxm
              exact htrans _ _ _ hxm hyx
            · exact htrans _ _ _ (htrans _ _ _ hxm h) hyx
          rw [heq, hirr x] at hzx
          exact Bool.false_ne_true hzx
      · exact ih y z hzy
    · rw [show minStep lt x y = x by simp [minStep, hyx]]
      rcases hz' with heq | heq | hzy
      · exact ih x z (Or.inl heq)
      · -- z = y: y was not below x, so it cannot be below the minimum either
        cases hym : lt z (ys.foldl (minStep lt) x) with
        | false => rfl
        | true =>
          exfalso
          apply hyx
          rw [← heq]
          rcases minFold_init lt htrans x ys with h | h
          · rw [h] at hym
            exact hym
          · exact htrans _ _ _ hym h
      · exact ih x z (Or.inr hzy)

theorem minFold_first (lt : α → α → Bool)
    (htrans : ∀ a b c, lt a b = true → lt b c = true → lt a c = true)
    (hext : ∀ a b c, lt a b = true → lt c b = false → lt a c = true)
    (x : α) (xs : List α) :
    ∃ p s, x :: xs = p ++ (xs.foldl (minStep lt) x) :: s ∧
      ∀ z ∈ p, lt (xs.foldl (minStep lt) x) z = true := by
  induction xs generalizing x with
  | nil => exact ⟨[], [], rfl, by simp⟩
  | cons y ys ih =>
    simp only [List.foldl_cons]
    by_cases hyx : lt y x = true
    · rw [show minStep lt x y = y by simp [minStep, hyx]]
      obtain ⟨p, s, hsplit, hp⟩ := ih y
      refine ⟨x :: p, s, by rw [List.cons_append, ← hsplit], ?_⟩
      intro z hz
      rcases List.mem_cons.1 hz with rfl | hz
      · rcases minFold_init lt htrans y ys with h | h
        · rw [h]; exact hyx
        · exact htrans _ _ _ h hyx
      · exact hp z hz
    · rw [show minStep lt x y = x by simp [minStep, hyx]]
      obtain ⟨p, s, hsplit, hp⟩ := ih x
      set m := ys.foldl (minStep lt) x with hmdef
      cases p with
      | nil =>
        simp only [List.nil_append] at hsplit
        injection hsplit with hm hs
        refine ⟨[], y :: ys, ?_, by simp⟩
        rw [List.nil_append, ← hm]
      | cons a p₂ =>
        simp only [List.cons_append, List.cons.injEq] at hsplit
        obtain ⟨hxa, hys⟩ := hsplit
        have hma : lt m a = true :=
          hp a (List.mem_cons_self _ _)
        have hmy : lt m y = true := by
          refine hext _ _ _ hma ?_
          cases h : lt y a with
          | false => rfl
          | true =>
            rw [← hxa] at h
            exact absurd h hyx
        refine ⟨a :: y :: p₂, s, ?_, ?_⟩
        · rw [hxa, hys]
          simp
        · intro z hz
          rcases List.mem_cons.1 hz with heq | hz2
          · rw [heq]
            exact hma
          · rcases List.mem_cons.1 hz2 with heq | hz3
            · rw [heq]
              exact hmy
            · exact hp z (List.mem_cons_of_mem _ hz3)

/-! ## The findClosestTurn comparator satisfies the order axioms -/

theorem turnCmp_trans (angle : ℚ) (filter : ConnectedRoad → Bool) :
    ∀ a b c, turnCmp angle filter a b = true → turnCmp angle filter b c = true →
      turnCmp angle filter a c = true := by
  intro a b c h1 h2
  simp only [turnCmp, decide_eq_true_eq] at h1 h2 ⊢
  exact lexLt_trans h1 h2

theorem turnCmp_irrefl (angle : ℚ) (filter : ConnectedRoad → Bool) :
    ∀ a, turnCmp angle filter a a = false := by
  intro a
  simp only [turnCmp, decide_eq_false_iff_not]
  exact lexLt_irrefl _

theorem turnCmp_ext (angle : ℚ) (filter : ConnectedRoad → Bool) :
    ∀ a b c, turnCmp angle filter a b = true → turnCmp angle filter c b = false →
      turnCmp angle filter a c = true := by
  intro a b c h1 h2
  simp only [turnCmp, decide_eq_true_eq] at h1 ⊢
  simp only [turnCmp, decide_eq_false_iff_not] at h2
  exact lexLt_ext h1 h2

/-- The key of one road in the findClosestTurn comparison. -/
def turnKey (angle : ℚ) (filter : ConnectedRoad → Bool) (road : ConnectedRoad) : Bool × ℚ :=
  (filter road, angularDeviation road.angle angle)

theorem minElement?_eq_some {l : List ConnectedRoad} (hne : l ≠ [])
    (angle : ℚ) (filter : ConnectedRoad → Bool) :
    ∃ m, minElement? (turnCmp angle filter) l = some m ∧ m ∈ l ∧
      (∀ z ∈ l, ¬ lexLt (turnKey angle filter z) (turnKey angle filter m)) := by
  cases l with
  | nil => exact absurd rfl hne
  | cons x xs =>
    refine ⟨xs.foldl (minStep (turnCmp angle filter)) x, rfl, ?_, ?_⟩
    · rcases minFold_mem (turnCmp angle filter) x xs with h | h
      · rw [h]; exact List.mem_cons_self _ _
      · exact List.mem_cons_of_mem _ h
    · intro z hz
      have := minFold_not_lt (turnCmp angle filter)
        (turnCmp_trans angle filter) (turnCmp_irrefl angle filter) x xs z
        (List.mem_cons.1 hz)
      simpa [turnCmp, turnKey] using this

/-- Claim C1: for every non-empty intersection with at least one element the
exclusion predicate keeps, findClosestTurn returns the element minimising
the lexicographic key (is_excluded, angular deviation to the target): the
result is a kept element, no element of the intersection has a strictly
smaller key, and every element strictly before the result in container
order has a strictly greater key (stable min_element semantics), so a
non-excluded element always outranks an excluded one and ties resolve to
the earliest element. -/
theorem findClosestTurn_minimizes (l : List ConnectedRoad) (angle : ℚ)
    (filter : ConnectedRoad → Bool) (hne : l ≠ [])
    (hkept : ∃ x ∈ l, filter x = false) :
    ∃ r, findClosestTurn l angle filter = some (some r) ∧ r ∈ l ∧ filter r = false ∧
      (∀ x ∈ l, ¬ lexLt (turnKey angle filter x) (turnKey angle filter r)) ∧
      ∃ p s, l = p ++ r :: s ∧
        ∀ z ∈ p, lexLt (turnKey angle filter r) (turnKey angle filter z) := by
  cases l with
  | nil => exact absurd rfl hne
  | cons x xs =>
    obtain ⟨m, hm, hmem, hmin⟩ := minElement?_eq_some hne angle filter
    have hmfold : xs.foldl (minStep (turnCmp angle filter)) x = m := by
      simpa [minElement?] using hm
    have hfm : filter m = false := by
      obtain ⟨w, hw, hwf⟩ := hkept
      cases hfm : filter m with
      | false => rfl
      | true =>
        exfalso
        apply hmin w hw
        simp [turnKey, lexLt, hwf, hfm]
    refine ⟨m, ?_, hmem, hfm, hmin, ?_⟩
    · simp [findClosestTurn, minElement?, hmfold, hfm]
    · obtain ⟨p, s, hsplit, hp⟩ := minFold_first (turnCmp angle filter)
        (turnCmp_trans angle filter) (turnCmp_ext angle filter) x xs
      rw [hmfold] at hsplit hp
      refine ⟨p, s, hsplit, ?_⟩
      intro z hz
      have := hp z hz
      simpa [turnCmp, turnKey] using this

/-- Claim C1 witness: for turn angles 0, 90 and 260 and a query of 180 with
no exclusion, the search succeeds and the properties of the returned road
hold (per the source comment the returned road is the 260 degree one). -/
theorem findClosestTurn_minimizes_witness :
    ∃ r, findClosestTurn
        [⟨⟨⟨0, 0, 1⟩, true, 0⟩, ⟨0, .UTurn⟩, 0⟩,
         ⟨⟨⟨1, 90, 1⟩, true, 90⟩, ⟨0, .Right⟩, 0⟩,
         ⟨⟨⟨2, 260, 1⟩, true, 260⟩, ⟨0, .Left⟩, 0⟩] 180 (fun _ => false) =
        some (some r) ∧
      r ∈ [⟨⟨⟨0, 0, 1⟩, true, 0⟩, ⟨0, .UTurn⟩, 0⟩,
           ⟨⟨⟨1, 90, 1⟩, true, 90⟩, ⟨0, .Right⟩, 0⟩,
           ⟨⟨⟨2, 260, 1⟩, true, 260⟩, ⟨0, .Left⟩, 0⟩] ∧
      (fun _ => false : ConnectedRoad → Bool) r = false ∧
      (∀ x ∈ [⟨⟨⟨0, 0, 1⟩, true, 0⟩, ⟨0, .UTurn⟩, 0⟩,
              ⟨⟨⟨1, 90, 1⟩, true, 90⟩, ⟨0, .Right⟩, 0⟩,
              ⟨⟨⟨2, 260, 1⟩, true, 260⟩, ⟨0, .Left⟩, 0⟩],
        ¬ lexLt (turnKey 180 (fun _ => false) x) (turnKey 180 (fun _ => false) r)) ∧
      ∃ p s, [⟨⟨⟨0, 0, 1⟩, true, 0⟩, ⟨0, .UTurn⟩, 0⟩,
              ⟨⟨⟨1, 90, 1⟩, true, 90⟩, ⟨0, .Right⟩, 0⟩,
              ⟨⟨⟨2, 260, 1⟩, true, 260⟩, ⟨0, .Left⟩, 0⟩] = p ++ r :: s ∧
        ∀ z ∈ p, lexLt (turnKey 180 (fun _ => false) r) (turnKey 180 (fun _ => false) z) :=
  findClosestTurn_minimizes _ 180 (fun _ => false) (by simp)
    ⟨⟨⟨⟨0, 0, 1⟩, true, 0⟩, ⟨0, .UTurn⟩, 0⟩, by simp, rfl⟩

/-- Claim C2: for every non-empty intersection in which the predicate
excludes every element, findClosestTurn returns the cend() sentinel and
never an excluded element. -/
theorem findClosestTurn_all_excluded (l : List ConnectedRoad) (angle : ℚ)
    (filter : ConnectedRoad → Bool) (hne : l ≠ [])
    (hall : ∀ x ∈ l, filter x = true) :
    findClosestTurn l angle filter = some none := by
  cases l with
  | nil => exact absurd rfl hne
  | cons x xs =>
    obtain ⟨m, hm, hmem, -⟩ := minElement?_eq_some hne angle filter
    have hmfold : xs.foldl (minStep (turnCmp angle filter)) x = m := by
      simpa [minElement?] using hm
    simp [findClosestTurn, minElement?, hmfold, hall m hmem]

/-- Claim C2 witness: a two-element intersection whose elements are both
excluded yields the sentinel. -/
theorem findClosestTurn_all_excluded_witness :
    findClosestTurn
      [⟨⟨⟨0, 0, 1⟩, true, 0⟩, ⟨0, .UTurn⟩, 0⟩,
       ⟨⟨⟨1, 90, 1⟩, true, 90⟩, ⟨0, .Right⟩, 0⟩] 180 (fun _ => true) = some none :=
  findClosestTurn_all_excluded _ 180 (fun _ => true) (by simp) (by simp)

/-- Claim C9: the filtered findClosestTurn dereferences the min_element
result unconditionally, so on the empty intersection the embedding reports
the unsafe dereference (outer none); on every non-empty intersection the
dereference is of a real element and the cend() sentinel is produced
exactly when every element is excluded, never because of emptiness. -/
theorem findClosestTurn_deref_safety :
    (∀ (angle : ℚ) (filter : ConnectedRoad → Bool),
        findClosestTurn [] angle filter = none) ∧
    ∀ (l : List ConnectedRoad) (angle : ℚ) (filter : ConnectedRoad → Bool),
      l ≠ [] → ∃ res, findClosestTurn l angle filter = some res ∧
        (res = none ↔ ∀ x ∈ l, filter x = true) := by
  constructor
  · intro angle filter
    rfl
  · intro l angle filter hne
    cases l with
    | nil => exact absurd rfl hne
    | cons x xs =>
      obtain ⟨m, hm, hmem, hmin⟩ := minElement?_eq_some hne angle filter
      have hmfold : xs.foldl (minStep (turnCmp angle filter)) x = m := by
        simpa [minElement?] using hm
      refine ⟨if filter m then none else some m, ?_, ?_⟩
      · simp [findClosestTurn, minElement?, hmfold]
      · constructor
        · intro hres z hz
          have hfm : filter m = true := by
            cases hfm : filter m with
            | true => rfl
            | false =>
              rw [hfm] at hres
              simp at hres
          cases hfz : filter z with
          | true => rfl
          | false =>
            exfalso
            apply hmin z hz
            simp [turnKey, lexLt, hfz, hfm]
        · intro hall
          simp [hall m hmem]

/-- Claim C9 witness: on a concrete singleton intersection the result exists,
and it is the sentinel precisely because the only element is excluded. -/
theorem findClosestTurn_deref_safety_witness :
    ∃ res, findClosestTurn [⟨⟨⟨0, 0, 1⟩, true, 0⟩, ⟨0, .UTurn⟩, 0⟩] 10
        (fun _ => true) = some res ∧
      (res = none ↔ ∀ x ∈ [(⟨⟨⟨0, 0, 1⟩, true, 0⟩, ⟨0, .UTurn⟩, 0⟩ : ConnectedRoad)],
        (fun _ => true : ConnectedRoad → Bool) x = true) :=
  findClosestTurn_deref_safety.2 _ 10 (fun _ => true) (by simp)

/-- Claim C3: angleToDirectionModifier returns Right exactly below 135,
Straight exactly on [135, 225], Left exactly above 225, and in particular
134.9 maps to Right, 135 and 225 to Straight, and 225.1 to Left. -/
theorem angleToDirectionModifier_thresholds :
    (∀ angle : ℚ,
      (angleToDirectionModifier angle = DirectionModifier.Right ↔ angle < 135) ∧
      (angleToDirectionModifier angle = DirectionModifier.Straight ↔
        135 ≤ angle ∧ angle ≤ 225) ∧
      (angleToDirectionModifier angle = DirectionModifier.Left ↔ 225 < angle)) ∧
    angleToDirectionModifier (1349/10) = DirectionModifier.Right ∧
    angleToDirectionModifier 135 = DirectionModifier.Straight ∧
    angleToDirectionModifier 225 = DirectionModifier.Straight ∧
    angleToDirectionModifier (2251/10) = DirectionModifier.Left := by
  refine ⟨?_, by norm_num [angleToDirectionModifier], by norm_num [angleToDirectionModifier],
    by norm_num [angleToDirectionModifier], by norm_num [angleToDirectionModifier]⟩
  intro angle
  unfold angleToDirectionModifier
  split_ifs with h1 h2
  · refine ⟨iff_of_true rfl h1,
      iff_of_false (by simp) ?_,
      iff_of_false (by simp) ?_⟩
    · rintro ⟨h, -⟩
      linarith
    · intro h
      linarith
  · refine ⟨iff_of_false (by simp) h1,
      iff_of_true rfl ⟨not_lt.1 h1, h2⟩,
      iff_of_false (by simp) ?_⟩
    intro h
    linarith
  · refine ⟨iff_of_false (by simp) h1,
      iff_of_false (by simp) ?_,
      iff_of_true rfl (not_le.1 h2)⟩
    rintro ⟨-, h⟩
    exact h2 h

/-- Claim C7: mirroring a connected road twice restores it exactly; a single
mirror reflects the angle about the straight-ahead 180 degree axis, swaps
every Left-flavored modifier with its Right counterpart and vice versa, and
fixes the Straight and U-turn modifiers. -/
theorem mirror_involution :
    (∀ road : ConnectedRoad, road.mirror.mirror = road) ∧
    (∀ road : ConnectedRoad, road.mirror.angle = 360 - road.angle) ∧
    (∀ m : DirectionModifier, m.mirrorModifier.mirrorModifier = m) ∧
    DirectionModifier.Straight.mirrorModifier = DirectionModifier.Straight ∧
    DirectionModifier.UTurn.mirrorModifier = DirectionModifier.UTurn ∧
    DirectionModifier.Left.mirrorModifier = DirectionModifier.Right ∧
    DirectionModifier.Right.mirrorModifier = DirectionModifier.Left ∧
    DirectionModifier.SharpLeft.mirrorModifier = DirectionModifier.SharpRight ∧
    DirectionModifier.SharpRight.mirrorModifier = DirectionModifier.SharpLeft ∧
    DirectionModifier.SlightLeft.mirrorModifier = DirectionModifier.SlightRight ∧
    DirectionModifier.SlightRight.mirrorModifier = DirectionModifier.SlightLeft := by
  refine ⟨?_, ?_, ?_, rfl, rfl, rfl, rfl, rfl, rfl, rfl, rfl⟩
  · intro road
    obtain ⟨⟨⟨eid, bearing, seg⟩, entry, angle⟩, ⟨ty, dm⟩, ld⟩ := road
    simp only [ConnectedRoad.mirror, ConnectedRoad.mk.injEq, IntersectionViewData.mk.injEq,
      IntersectionShapeData.mk.injEq, TurnInstruction.mk.injEq, eq_self_iff_true, true_and,
      and_true]
    constructor
    · ring
    · cases dm <;> rfl
  · intro road
    rfl
  · intro m
    cases m <;> rfl


/-! ## getHighestConnectedLaneCount (claim C5) -/

theorem foldl_max_ge_init (a : Nat) (l : List Nat) : a ≤ l.foldl (fun m v => max m v) a := by
  induction l generalizing a with
  | nil => exact le_refl a
  | cons y ys ih => exact le_trans (le_max_left a y) (ih (max a y))

theorem foldl_max_ge_elem (a : Nat) (l : List Nat) :
    ∀ v ∈ l, v ≤ l.foldl (fun m v => max m v) a := by
  induction l generalizing a with
  | nil => intro v hv; simp at hv
  | cons y ys ih =>
    intro v hv
    rcases List.mem_cons.1 hv with rfl | hv
    · exact le_trans (le_max_right a v) (foldl_max_ge_init _ ys)
    · exact ih (max a y) v hv

theorem foldl_max_mem (a : Nat) (l : List Nat) :
    l.foldl (fun m v => max m v) a = a ∨ l.foldl (fun m v => max m v) a ∈ l := by
  induction l generalizing a with
  | nil => exact Or.inl rfl
  | cons y ys ih =>
    simp only [List.foldl_cons]
    rcases ih (max a y) with h | h
    · rw [h]
      rcases Nat.le_total a y with hay | hya
      · rw [max_eq_right hay]
        exact Or.inr (List.mem_cons_self _ _)
      · rw [max_eq_left hya]
        exact Or.inl rfl
    · exact Or.inr (List.mem_cons_of_mem _ h)

/-- Claim C5: for every non-empty intersection, getHighestConnectedLaneCount
returns the maximum over all connected roads of the lane count recorded in
the road classification of that road's edge in the graph: the result is one
of the connected lane counts, bounds all of them, and is unchanged when
every road's entry_allowed flag is overwritten (no legality filtering). -/
theorem getHighestConnectedLaneCount_max (laneCount : EdgeID → Nat)
    (l : List ConnectedRoad) (hne : l ≠ []) :
    (∃ x ∈ l, getHighestConnectedLaneCount laneCount l = laneCount x.eid) ∧
    (∀ x ∈ l, laneCount x.eid ≤ getHighestConnectedLaneCount laneCount l) ∧
    ∀ b : Bool,
      getHighestConnectedLaneCount laneCount
        (l.map fun r => { r with entry_allowed := b }) =
      getHighestConnectedLaneCount laneCount l := by
  refine ⟨?_, ?_, ?_⟩
  · rcases foldl_max_mem 0 (l.map fun road => laneCount road.eid) with h | h
    · -- the fold returned the initial 0: every lane count is at most 0
      cases l with
      | nil => exact absurd rfl hne
      | cons x xs =>
        refine ⟨x, List.mem_cons_self _ _, ?_⟩
        have hx : laneCount x.eid ≤ getHighestConnectedLaneCount laneCount (x :: xs) :=
          foldl_max_ge_elem 0 _ _ (by simp)
        have h0 : getHighestConnectedLaneCount laneCount (x :: xs) = 0 := h
        omega
    · obtain ⟨x, hx, hxe⟩ := List.mem_map.1 h
      exact ⟨x, hx, hxe.symm⟩
  · intro x hx
    exact foldl_max_ge_elem 0 _ _ (List.mem_map_of_mem _ hx)
  · intro b
    unfold getHighestConnectedLaneCount
    rw [List.map_map]
    rfl

/-- Claim C5 witness: lane counts {1, 3, 2} yield 3, also with every road
marked entry_allowed = false. -/
theorem getHighestConnectedLaneCount_max_witness :
    (∃ x ∈ [(⟨⟨⟨0, 0, 1⟩, true, 0⟩, ⟨0, .UTurn⟩, 0⟩ : ConnectedRoad),
             ⟨⟨⟨1, 90, 1⟩, true, 90⟩, ⟨0, .Right⟩, 0⟩,
             ⟨⟨⟨2, 260, 1⟩, true, 260⟩, ⟨0, .Left⟩, 0⟩],
      getHighestConnectedLaneCount (fun e => [1, 3, 2].getD e 0)
        [⟨⟨⟨0, 0, 1⟩, true, 0⟩, ⟨0, .UTurn⟩, 0⟩,
         ⟨⟨⟨1, 90, 1⟩, true, 90⟩, ⟨0, .Right⟩, 0⟩,
         ⟨⟨⟨2, 260, 1⟩, true, 260⟩, ⟨0, .Left⟩, 0⟩] = (fun e => [1, 3, 2].getD e 0) x.eid) ∧
    (∀ x ∈ [(⟨⟨⟨0, 0, 1⟩, true, 0⟩, ⟨0, .UTurn⟩, 0⟩ : ConnectedRoad),
            ⟨⟨⟨1, 90, 1⟩, true, 90⟩, ⟨0, .Right⟩, 0⟩,
            ⟨⟨⟨2, 260, 1⟩, true, 260⟩, ⟨0, .Left⟩, 0⟩],
      (fun e => [1, 3, 2].getD e 0) x.eid ≤
        getHighestConnectedLaneCount (fun e => [1, 3, 2].getD e 0)
          [⟨⟨⟨0, 0, 1⟩, true, 0⟩, ⟨0, .UTurn⟩, 0⟩,
           ⟨⟨⟨1, 90, 1⟩, true, 90⟩, ⟨0, .Right⟩, 0⟩,
           ⟨⟨⟨2, 260, 1⟩, true, 260⟩, ⟨0, .Left⟩, 0⟩]) ∧
    (∀ b : Bool,
      getHighestConnectedLaneCount (fun e => [1, 3, 2].getD e 0)
        ([(⟨⟨⟨0, 0, 1⟩, true, 0⟩, ⟨0, .UTurn⟩, 0⟩ : ConnectedRoad),
          ⟨⟨⟨1, 90, 1⟩, true, 90⟩, ⟨0, .Right⟩, 0⟩,
          ⟨⟨⟨2, 260, 1⟩, true, 260⟩, ⟨0, .Left⟩, 0⟩].map fun r => { r with entry_allowed := b }) =
      getHighestConnectedLaneCount (fun e => [1, 3, 2].getD e 0)
        [⟨⟨⟨0, 0, 1⟩, true, 0⟩, ⟨0, .UTurn⟩, 0⟩,
         ⟨⟨⟨1, 90, 1⟩, true, 90⟩, ⟨0, .Right⟩, 0⟩,
         ⟨⟨⟨2, 260, 1⟩, true, 260⟩, ⟨0, .Left⟩, 0⟩]) ∧
    getHighestConnectedLaneCount (fun e => [1, 3, 2].getD e 0)
      [⟨⟨⟨0, 0, 1⟩, true, 0⟩, ⟨0, .UTurn⟩, 0⟩,
       ⟨⟨⟨1, 90, 1⟩, true, 90⟩, ⟨0, .Right⟩, 0⟩,
       ⟨⟨⟨2, 260, 1⟩, true, 260⟩, ⟨0, .Left⟩, 0⟩] = 3 := by
  have h := getHighestConnectedLaneCount_max (fun e => [1, 3, 2].getD e 0)
    [⟨⟨⟨0, 0, 1⟩, true, 0⟩, ⟨0, .UTurn⟩, 0⟩,
     ⟨⟨⟨1, 90, 1⟩, true, 90⟩, ⟨0, .Right⟩, 0⟩,
     ⟨⟨⟨2, 260, 1⟩, true, 260⟩, ⟨0, .Left⟩, 0⟩] (by simp)
  exact ⟨h.1, h.2.1, h.2.2, by decide⟩

/-! ## IntersectionView::valid (claim C8) -/

theorem is_sorted_iff_chain' (comp : α → α → Bool) (l : List α) :
    is_sorted comp l = true ↔ List.Chain' (fun a b => comp b a = false) l := by
  induction l with
  | nil => simp [is_sorted]
  | cons x xs ih =>
    cases xs with
    | nil => simp [is_sorted]
    | cons y t =>
      have hstep : is_sorted comp (x :: y :: t) = (!comp y x && is_sorted comp (y :: t)) := rfl
      rw [hstep, Bool.and_eq_true, Bool.not_eq_true', List.chain'_cons, ih]

/-- Claim C8: IntersectionView::valid returns true exactly when the sequence
of view elements is sorted in ascending turn-angle order (pairwise
non-decreasing angles), the sort invariant checked through the CompareByAngle
comparator. -/
theorem valid_iff_sorted_by_angle (v : IntersectionView) :
    v.valid = true ↔ v.Pairwise (fun a b => a.angle ≤ b.angle) := by
  have htrans : IsTrans IntersectionViewData (fun a b => a.angle ≤ b.angle) :=
    ⟨fun a b c h1 h2 => le_trans h1 h2⟩
  rw [IntersectionView.valid, is_sorted_iff_chain']
  have hrel : (fun (a b : IntersectionViewData) => a.CompareByAngle b = false) =
      (fun (a b : IntersectionViewData) => b.angle ≤ a.angle) := by
    funext a b
    simp [IntersectionViewData.CompareByAngle, decide_eq_false_iff_not, not_lt]
  constructor
  · intro h
    have h' : List.Chain' (fun a b : IntersectionViewData => a.angle ≤ b.angle) v := by
      refine List.Chain'.imp ?_ h
      intro a b hab
      simpa [IntersectionViewData.CompareByAngle, decide_eq_false_iff_not, not_lt] using hab
    exact (@List.chain'_iff_pairwise _ _ htrans v).1 h'
  · intro h
    have h' : List.Chain' (fun a b : IntersectionViewData => a.angle ≤ b.angle) v :=
      (@List.chain'_iff_pairwise _ _ htrans v).2 h
    refine List.Chain'.imp ?_ h'
    intro a b hab
    simpa [IntersectionViewData.CompareByAngle, decide_eq_false_iff_not, not_lt] using hab

/-! ## forEachRoundabout: loop step equations and properties (claim C4) -/

theorem forEachRoundabout_break_no_enter {σ : Type} (enters leaves : α → Bool)
    (fn : σ → List α → σ) (l : List α) (acc : σ)
    (h : splitAtEnter enters l = none) :
    forEachRoundabout enters leaves fn l acc = acc := by
  unfold forEachRoundabout
  split
  · rfl
  · next l' heq =>
    rw [h] at heq
    exact Option.noConfusion heq

theorem forEachRoundabout_break_no_leave {σ : Type} (enters leaves : α → Bool)
    (fn : σ → List α → σ) (l : List α) (acc : σ) (l' : List α)
    (h1 : splitAtEnter enters l = some l') (h2 : takeUntilLeave leaves l' = none) :
    forEachRoundabout enters leaves fn l acc = acc := by
  unfold forEachRoundabout
  split
  · rfl
  · next l'' heq =>
    rw [h1] at heq
    injection heq with heq'
    subst heq'
    split
    · rfl
    · next r rest heq2 =>
      rw [h2] at heq2
      exact Option.noConfusion heq2

theorem forEachRoundabout_step {σ : Type} (enters leaves : α → Bool)
    (fn : σ → List α → σ) (l : List α) (acc : σ) (l' r rest : List α)
    (h1 : splitAtEnter enters l = some l') (h2 : takeUntilLeave leaves l' = some (r, rest)) :
    forEachRoundabout enters leaves fn l acc =
      forEachRoundabout enters leaves fn rest (fn acc r) := by
  conv_lhs => unfold forEachRoundabout
  split
  · next heq =>
    rw [h1] at heq
    exact Option.noConfusion heq
  · next l'' heq =>
    rw [h1] at heq
    injection heq with heq'
    subst heq'
    split
    · next heq2 =>
      rw [h2] at heq2
      exact Option.noConfusion heq2
    · next r' rest' heq2 =>
      rw [h2] at heq2
      injection heq2 with heq3
      injection heq3 with hr hrest
      subst hr
      subst hrest
      rfl

theorem roundaboutRanges_break_no_enter (enters leaves : α → Bool) (l : List α)
    (h : splitAtEnter enters l = none) :
    roundaboutRanges enters leaves l = [] := by
  unfold roundaboutRanges
  split
  · rfl
  · next l' heq =>
    rw [h] at heq
    exact Option.noConfusion heq

theorem roundaboutRanges_break_no_leave (enters leaves : α → Bool) (l l' : List α)
    (h1 : splitAtEnter enters l = some l') (h2 : takeUntilLeave leaves l' = none) :
    roundaboutRanges enters leaves l = [] := by
  unfold roundaboutRanges
  split
  · rfl
  · next l'' heq =>
    rw [h1] at heq
    injection heq with heq'
    subst heq'
    split
    · rfl
    · next r rest heq2 =>
      rw [h2] at heq2
      exact Option.noConfusion heq2

theorem roundaboutRanges_step (enters leaves : α → Bool) (l l' r rest : List α)
    (h1 : splitAtEnter enters l = some l') (h2 : takeUntilLeave leaves l' = some (r, rest)) :
    roundaboutRanges enters leaves l = r :: roundaboutRanges enters leaves rest := by
  conv_lhs => unfold roundaboutRanges
  split
  · next heq =>
    rw [h1] at heq
    exact Option.noConfusion heq
  · next l'' heq =>
    rw [h1] at heq
    injection heq with heq'
    subst heq'
    split
    · next heq2 =>
      rw [h2] at heq2
      exact Option.noConfusion heq2
    · next r' rest' heq2 =>
      rw [h2] at heq2
      injection heq2 with heq3
      injection heq3 with hr hrest
      subst hr
      subst hrest
      rfl

theorem splitAtEnter_head {enters : α → Bool} {l l' : List α}
    (h : splitAtEnter enters l = some l') :
    ∃ x xs, l' = x :: xs ∧ enters x = true := by
  induction l with
  | nil => simp [splitAtEnter] at h
  | cons x xs ih =>
    by_cases hx : enters x = true
    · simp only [splitAtEnter, hx, if_true, Option.some.injEq] at h
      exact ⟨x, xs, h.symm, hx⟩
    · simp only [splitAtEnter, hx, Bool.false_eq_true, if_false] at h
      exact ih h

theorem takeUntilLeave_head {leaves : α → Bool} {l r rest : List α}
    (h : takeUntilLeave leaves l = some (r, rest)) :
    ∃ x xs r', l = x :: xs ∧ r = x :: r' := by
  cases l with
  | nil => simp [takeUntilLeave] at h
  | cons x xs =>
    by_cases hx : leaves x = true
    · simp only [takeUntilLeave, hx, if_true, Option.some.injEq, Prod.mk.injEq] at h
      exact ⟨x, xs, [], rfl, h.1.symm⟩
    · simp only [takeUntilLeave, hx, Bool.false_eq_true, if_false] at h
      cases htl : takeUntilLeave leaves xs with
      | none =>
        rw [htl] at h
        simp at h
      | some pr =>
        obtain ⟨r', rest'⟩ := pr
        rw [htl] at h
        simp only [Option.some.injEq, Prod.mk.injEq] at h
        exact ⟨x, xs, r', rfl, by rw [← h.1]⟩

theorem forEachRoundabout_eq_foldl {σ : Type} (enters leaves : α → Bool)
    (fn : σ → List α → σ) :
    ∀ (l : List α) (acc : σ),
      forEachRoundabout enters leaves fn l acc =
        (roundaboutRanges enters leaves l).foldl fn acc := by
  have H : ∀ (n : Nat) (l : List α), l.length ≤ n → ∀ acc : σ,
      forEachRoundabout enters leaves fn l acc =
        (roundaboutRanges enters leaves l).foldl fn acc := by
    intro n
    induction n with
    | zero =>
      intro l hl acc
      have hnil : l = [] := List.length_eq_zero.1 (Nat.le_zero.1 hl)
      subst hnil
      rw [forEachRoundabout_break_no_enter enters leaves fn [] acc rfl,
        roundaboutRanges_break_no_enter enters leaves [] rfl]
      rfl
    | succ n ih =>
      intro l hl acc
      cases hsplit : splitAtEnter enters l with
      | none =>
        rw [forEachRoundabout_break_no_enter _ _ _ _ _ hsplit,
          roundaboutRanges_break_no_enter _ _ _ hsplit]
        rfl
      | some l' =>
        cases htake : takeUntilLeave leaves l' with
        | none =>
          rw [forEachRoundabout_break_no_leave _ _ _ _ _ _ hsplit htake,
            roundaboutRanges_break_no_leave _ _ _ _ hsplit htake]
          rfl
        | some pr =>
          obtain ⟨r, rest⟩ := pr
          rw [forEachRoundabout_step _ _ _ _ _ _ _ _ hsplit htake,
            roundaboutRanges_step _ _ _ _ _ _ hsplit htake, List.foldl_cons]
          refine ih rest ?_ (fn acc r)
          have hlen1 := takeUntilLeave_length htake
          have hlen2 := splitAtEnter_length hsplit
          omega
  intro l acc
  exact H l.length l (le_refl _) acc

theorem roundaboutRanges_scan_decomp (enters leaves : α → Bool) :
    ∀ l : List α, ScanDecomp enters l (roundaboutRanges enters leaves l) := by
  have H : ∀ (n : Nat) (l : List α), l.length ≤ n →
      ScanDecomp enters l (roundaboutRanges enters leaves l) := by
    intro n
    induction n with
    | zero =>
      intro l hl
      have hnil : l = [] := List.length_eq_zero.1 (Nat.le_zero.1 hl)
      subst hnil
      rw [roundaboutRanges_break_no_enter enters leaves [] rfl]
      exact trivial
    | succ n ih =>
      intro l hl
      cases hsplit : splitAtEnter enters l with
      | none =>
        rw [roundaboutRanges_break_no_enter _ _ _ hsplit]
        exact trivial
      | some l' =>
        cases htake : takeUntilLeave leaves l' with
        | none =>
          rw [roundaboutRanges_break_no_leave _ _ _ _ hsplit htake]
          exact trivial
        | some pr =>
          obtain ⟨r, rest⟩ := pr
          rw [roundaboutRanges_step _ _ _ _ _ _ hsplit htake]
          obtain ⟨g, hg, hge⟩ := splitAtEnter_decompose hsplit
          obtain ⟨hl'eq, -⟩ := takeUntilLeave_decompose htake
          refine ⟨g, rest, ?_, hge, ?_⟩
          · rw [hg, hl'eq, List.append_assoc]
          · refine ih rest ?_
            have hlen1 := takeUntilLeave_length htake
            have hlen2 := splitAtEnter_length hsplit
            omega
  intro l
  exact H l.length l (le_refl _)

theorem roundaboutRanges_shape (enters leaves : α → Bool) :
    ∀ (l r : List α), r ∈ roundaboutRanges enters leaves l →
      (∃ x r', r = x :: r' ∧ enters x = true) ∧
      (∃ r₀ y, r = r₀ ++ [y] ∧ leaves y = true ∧ ∀ z ∈ r₀, leaves z = false) := by
  have H : ∀ (n : Nat) (l : List α), l.length ≤ n →
      ∀ r, r ∈ roundaboutRanges enters leaves l →
      (∃ x r', r = x :: r' ∧ enters x = true) ∧
      (∃ r₀ y, r = r₀ ++ [y] ∧ leaves y = true ∧ ∀ z ∈ r₀, leaves z = false) := by
    intro n
    induction n with
    | zero =>
      intro l hl r hr
      have hnil : l = [] := List.length_eq_zero.1 (Nat.le_zero.1 hl)
      subst hnil
      rw [roundaboutRanges_break_no_enter enters leaves [] rfl] at hr
      simp at hr
    | succ n ih =>
      intro l hl r hr
      cases hsplit : splitAtEnter enters l with
      | none =>
        rw [roundaboutRanges_break_no_enter _ _ _ hsplit] at hr
        simp at hr
      | some l' =>
        cases htake : takeUntilLeave leaves l' with
        | none =>
          rw [roundaboutRanges_break_no_leave _ _ _ _ hsplit htake] at hr
          simp at hr
        | some pr =>
          obtain ⟨r₁, rest⟩ := pr
          rw [roundaboutRanges_step _ _ _ _ _ _ hsplit htake] at hr
          rcases List.mem_cons.1 hr with rfl | hr2
          · constructor
            · obtain ⟨x, xs, r'', hx, hrr⟩ := takeUntilLeave_head htake
              obtain ⟨x0, xs0, hx0, he0⟩ := splitAtEnter_head hsplit
              rw [hx0] at hx
              injection hx with hxx hxs
              refine ⟨x, r'', hrr, ?_⟩
              rw [← hxx]
              exact he0
            · obtain ⟨-, r₀, y, hrr, hy, hr₀⟩ := takeUntilLeave_decompose htake
              exact ⟨r₀, y, hrr, hy, hr₀⟩
          · refine ih rest ?_ r hr2
            have hlen1 := takeUntilLeave_length htake
            have hlen2 := splitAtEnter_length hsplit
            omega
  intro l r hr
  exact H l.length l (le_refl _) r hr

/-- A concrete route-step stand-in for the scenario checks: an identifying
tag plus the two instruction predicates entersRoundabout / leavesRoundabout
evaluated on the step's maneuver instruction. -/
structure RStep where
  id : Nat
  enters_flag : Bool
  leaves_flag : Bool
deriving DecidableEq, Repr

/-- Claim C4: forEachRoundabout applies fn exactly once per matched
enter/leave pair, in forward order (it equals the left fold of fn over the
scanned [enter, leave] ranges); the ranges tile the step sequence in order
without overlap, each preceded by an enter-free gap and resumed right after
its leave; each range starts at an enter step and ends at the first leave
step at or after it; and on the three reference sequences fn is invoked
once with range [enter, inside, leave], zero times, and twice in order
respectively. -/
theorem forEachRoundabout_spec :
    (∀ (α σ : Type) (enters leaves : α → Bool) (fn : σ → List α → σ)
        (l : List α) (acc : σ),
      forEachRoundabout enters leaves fn l acc =
        (roundaboutRanges enters leaves l).foldl fn acc) ∧
    (∀ (α : Type) (enters leaves : α → Bool) (l : List α),
      ScanDecomp enters l (roundaboutRanges enters leaves l)) ∧
    (∀ (α : Type) (enters leaves : α → Bool) (l r : List α),
      r ∈ roundaboutRanges enters leaves l →
        (∃ (x : α) (r' : List α), r = x :: r' ∧ enters x = true) ∧
        (∃ (r₀ : List α) (y : α), r = r₀ ++ [y] ∧ leaves y = true ∧
          ∀ z ∈ r₀, leaves z = false)) ∧
    (forEachRoundabout (fun s : RStep => s.enters_flag) (fun s => s.leaves_flag)
      (fun acc r => acc ++ [r])
      [⟨0, false, false⟩, ⟨1, true, false⟩, ⟨2, false, false⟩,
       ⟨3, false, true⟩, ⟨4, false, false⟩] [] =
      [[⟨1, true, false⟩, ⟨2, false, false⟩, ⟨3, false, true⟩]]) ∧
    (forEachRoundabout (fun s : RStep => s.enters_flag) (fun s => s.leaves_flag)
      (fun acc r => acc ++ [r])
      [⟨0, false, false⟩, ⟨1, true, false⟩, ⟨4, false, false⟩] [] = []) ∧
    (forEachRoundabout (fun s : RStep => s.enters_flag) (fun s => s.leaves_flag)
      (fun acc r => acc ++ [r])
      [⟨0, false, false⟩, ⟨1, true, false⟩, ⟨2, false, true⟩,
       ⟨3, true, false⟩, ⟨4, false, true⟩, ⟨5, false, false⟩] [] =
      [[⟨1, true, false⟩, ⟨2, false, true⟩], [⟨3, true, false⟩, ⟨4, false, true⟩]]) := by
  refine ⟨?_, ?_, ?_, ?_, ?_, ?_⟩
  · intro α σ enters leaves fn l acc
    exact forEachRoundabout_eq_foldl enters leaves fn l acc
  · intro α enters leaves l
    exact roundaboutRanges_scan_decomp enters leaves l
  · intro α enters leaves l r hr
    exact roundaboutRanges_shape enters leaves l r hr
  · rw [forEachRoundabout_step (fun s : RStep => s.enters_flag) (fun s => s.leaves_flag)
      (fun acc r => acc ++ [r])
      [⟨0, false, false⟩, ⟨1, true, false⟩, ⟨2, false, false⟩,
       ⟨3, false, true⟩, ⟨4, false, false⟩] []
      [⟨1, true, false⟩, ⟨2, false, false⟩, ⟨3, false, true⟩, ⟨4, false, false⟩]
      [⟨1, true, false⟩, ⟨2, false, false⟩, ⟨3, false, true⟩]
      [⟨4, false, false⟩] rfl rfl]
    rw [forEachRoundabout_break_no_enter (fun s : RStep => s.enters_flag)
      (fun s => s.leaves_flag) (fun acc r => acc ++ [r]) [⟨4, false, false⟩] _ rfl]
    rfl
  · exact forEachRoundabout_break_no_leave (fun s : RStep => s.enters_flag)
      (fun s => s.leaves_flag) (fun acc r => acc ++ [r])
      [⟨0, false, false⟩, ⟨1, true, false⟩, ⟨4, false, false⟩] []
      [⟨1, true, false⟩, ⟨4, false, false⟩] rfl rfl
  · rw [forEachRoundabout_step (fun s : RStep => s.enters_flag) (fun s => s.leaves_flag)
      (fun acc r => acc ++ [r])
      [⟨0, false, false⟩, ⟨1, true, false⟩, ⟨2, false, true⟩,
       ⟨3, true, false⟩, ⟨4, false, true⟩, ⟨5, false, false⟩] []
      [⟨1, true, false⟩, ⟨2, false, true⟩, ⟨3, true, false⟩,
       ⟨4, false, true⟩, ⟨5, false, false⟩]
      [⟨1, true, false⟩, ⟨2, false, true⟩]
      [⟨3, true, false⟩, ⟨4, false, true⟩, ⟨5, false, false⟩] rfl rfl]
    rw [forEachRoundabout_step (fun s : RStep => s.enters_flag) (fun s => s.leaves_flag)
      (fun acc r => acc ++ [r])
      [⟨3, true, false⟩, ⟨4, false, true⟩, ⟨5, false, false⟩] _
      [⟨3, true, false⟩, ⟨4, false, true⟩, ⟨5, false, false⟩]
      [⟨3, true, false⟩, ⟨4, false, true⟩]
      [⟨5, false, false⟩] rfl rfl]
    rw [forEachRoundabout_break_no_enter (fun s : RStep => s.enters_flag)
      (fun s => s.leaves_flag) (fun acc r => acc ++ [r]) [⟨5, false, false⟩] _ rfl]
    rfl

/-- Claim C4 witness: the shape part applied to the single range the scan
extracts from the sequence [A, enter, inside, leave, B]. -/
theorem forEachRoundabout_spec_witness :
    (∃ x r', [(⟨1, true, false⟩ : RStep), ⟨2, false, false⟩, ⟨3, false, true⟩] = x :: r' ∧
      (fun s : RStep => s.enters_flag) x = true) ∧
    (∃ r₀ y, [(⟨1, true, false⟩ : RStep), ⟨2, false, false⟩, ⟨3, false, true⟩] = r₀ ++ [y] ∧
      (fun s : RStep => s.leaves_flag) y = true ∧
      ∀ z ∈ r₀, (fun s : RStep => s.leaves_flag) z = false) :=
  forEachRoundabout_spec.2.2.1 RStep (fun s => s.enters_flag) (fun s => s.leaves_flag)
    [⟨0, false, false⟩, ⟨1, true, false⟩, ⟨2, false, false⟩,
     ⟨3, false, true⟩, ⟨4, false, false⟩]
    [⟨1, true, false⟩, ⟨2, false, false⟩, ⟨3, false, true⟩]
    (by
      rw [roundaboutRanges_step (fun s : RStep => s.enters_flag) (fun s => s.leaves_flag)
        [⟨0, false, false⟩, ⟨1, true, false⟩, ⟨2, false, false⟩,
         ⟨3, false, true⟩, ⟨4, false, false⟩]
        [⟨1, true, false⟩, ⟨2, false, false⟩, ⟨3, false, true⟩, ⟨4, false, false⟩]
        [⟨1, true, false⟩, ⟨2, false, false⟩, ⟨3, false, true⟩]
        [⟨4, false, false⟩] rfl rfl]
      exact List.mem_cons_self _ _)

/-! ## Lane partition claims (C6 and C10) -/

/-- A route step whose first intersection carries a 256-lane description and
an empty turn (lanes_in_turn = first_lane_from_the_right = 0): the size
narrows to LaneID 0, breaking the partition sum. -/
def c6Step : RouteStep := ⟨[⟨⟨0, 0⟩, List.replicate 256 0⟩]⟩

set_option maxRecDepth 4096 in
/-- Claim C6 counterexample: the step c6Step satisfies the claim's
well-formedness side condition (lanes_in_turn + first_lane_from_the_right ≤
total lane count), yet numLanesToTheLeft + numLanesToTheRight +
lanes_in_turn = 0 differs from the total lane count 256, because the
description size is narrowed to the 8-bit LaneID when total is
initialised. -/
theorem lanes_partition_counterexample :
    c6Step.frontIntersection.lanes.lanes_in_turn +
        c6Step.frontIntersection.lanes.first_lane_from_the_right ≤
      c6Step.frontIntersection.lane_description.length ∧
    numLanesToTheLeft c6Step + numLanesToTheRight c6Step +
        c6Step.frontIntersection.lanes.lanes_in_turn ≠
      c6Step.frontIntersection.lane_description.length := by
  constructor
  · decide
  · decide

/-- Claim C6 (amended): for every route step whose first intersection is
present, whose lane description has at most 255 lanes (so the size narrowed
to LaneID is the size itself) and is well-formed (lanes_in_turn +
first_lane_from_the_right ≤ total lane count), the three parts sum to the
total lane count, lanesToTheLeft / lanesToTheRight are the prefix of length
numLanesToTheLeft and the suffix of length numLanesToTheRight of the lane
description, and the unexposed middle between them has exactly
lanes_in_turn lanes. -/
theorem lanes_partition (step : RouteStep) (i : StepIntersection)
    (rest : List StepIntersection) (hfront : step.intersections = i :: rest)
    (hsize : i.lane_description.length ≤ 255)
    (hwf : i.lanes.lanes_in_turn + i.lanes.first_lane_from_the_right ≤
      i.lane_description.length) :
    numLanesToTheLeft step + numLanesToTheRight step + i.lanes.lanes_in_turn =
      i.lane_description.length ∧
    lanesToTheLeft step = i.lane_description.take (numLanesToTheLeft step) ∧
    lanesToTheRight step =
      i.lane_description.drop (i.lane_description.length - numLanesToTheRight step) ∧
    ∃ mid, i.lane_description = lanesToTheLeft step ++ mid ++ lanesToTheRight step ∧
      mid.length = i.lanes.lanes_in_turn := by
  have hfi : step.frontIntersection = i := by
    simp [RouteStep.frontIntersection, hfront]
  have hleft : numLanesToTheLeft step =
      i.lane_description.length -
        (i.lanes.lanes_in_turn + i.lanes.first_lane_from_the_right) := by
    simp only [numLanesToTheLeft, hfi]
    omega
  have hright : numLanesToTheRight step = i.lanes.first_lane_from_the_right := by
    simp [numLanesToTheRight, hfi]
  have htakeL : lanesToTheLeft step = i.lane_description.take (numLanesToTheLeft step) := by
    simp [lanesToTheLeft, hfi]
  have hdropR : lanesToTheRight step =
      i.lane_description.drop (i.lane_description.length - numLanesToTheRight step) := by
    simp [lanesToTheRight, hfi]
  refine ⟨by omega, htakeL, hdropR, ?_⟩
  refine ⟨(i.lane_description.drop (numLanesToTheLeft step)).take i.lanes.lanes_in_turn,
    ?_, ?_⟩
  · rw [htakeL, hdropR, hright]
    rw [show i.lane_description.length - i.lanes.first_lane_from_the_right =
      numLanesToTheLeft step + i.lanes.lanes_in_turn by omega]
    rw [← List.drop_drop i.lanes.lanes_in_turn (numLanesToTheLeft step) i.lane_description]
    rw [List.append_assoc, List.take_append_drop, List.take_append_drop]
  · rw [List.length_take, List.length_drop]
    omega

/-- Claim C6 witness (for the amended claim): a six-lane description with
two in-turn lanes and one lane to the right splits as three lanes to the
left, the two in-turn lanes in the middle, one lane to the right. -/
theorem lanes_partition_witness :
    numLanesToTheLeft (⟨[⟨⟨2, 1⟩, [10, 20, 30, 40, 50, 60]⟩]⟩ : RouteStep) +
        numLanesToTheRight ⟨[⟨⟨2, 1⟩, [10, 20, 30, 40, 50, 60]⟩]⟩ +
        (⟨⟨2, 1⟩, [10, 20, 30, 40, 50, 60]⟩ : StepIntersection).lanes.lanes_in_turn =
      (⟨⟨2, 1⟩, [10, 20, 30, 40, 50, 60]⟩ : StepIntersection).lane_description.length ∧
    lanesToTheLeft ⟨[⟨⟨2, 1⟩, [10, 20, 30, 40, 50, 60]⟩]⟩ =
      (⟨⟨2, 1⟩, [10, 20, 30, 40, 50, 60]⟩ : StepIntersection).lane_description.take
        (numLanesToTheLeft ⟨[⟨⟨2, 1⟩, [10, 20, 30, 40, 50, 60]⟩]⟩) ∧
    lanesToTheRight ⟨[⟨⟨2, 1⟩, [10, 20, 30, 40, 50, 60]⟩]⟩ =
      (⟨⟨2, 1⟩, [10, 20, 30, 40, 50, 60]⟩ : StepIntersection).lane_description.drop
        ((⟨⟨2, 1⟩, [10, 20, 30, 40, 50, 60]⟩ : StepIntersection).lane_description.length -
          numLanesToTheRight ⟨[⟨⟨2, 1⟩, [10, 20, 30, 40, 50, 60]⟩]⟩) ∧
    ∃ mid, (⟨⟨2, 1⟩, [10, 20, 30, 40, 50, 60]⟩ : StepIntersection).lane_description =
        lanesToTheLeft ⟨[⟨⟨2, 1⟩, [10, 20, 30, 40, 50, 60]⟩]⟩ ++ mid ++
          lanesToTheRight ⟨[⟨⟨2, 1⟩, [10, 20, 30, 40, 50, 60]⟩]⟩ ∧
      mid.length = (⟨⟨2, 1⟩, [10, 20, 30, 40, 50, 60]⟩ : StepIntersection).lanes.lanes_in_turn :=
  lanes_partition ⟨[⟨⟨2, 1⟩, [10, 20, 30, 40, 50, 60]⟩]⟩ ⟨⟨2, 1⟩, [10, 20, 30, 40, 50, 60]⟩
    [] rfl (by decide) (by decide)

/-- A route step whose first intersection records 255 in-turn lanes and 45
lanes to the right over a 100-lane description: the unsigned subtraction
wraps, but the wrapped value 56 is back inside the description. -/
def c10Step : RouteStep := ⟨[⟨⟨255, 45⟩, List.replicate 100 0⟩]⟩

/-- Claim C10 counterexample: on c10Step, lanes_in_turn +
first_lane_from_the_right = 300 exceeds the description size 100, the
subtraction wraps modulo 2^8 to 56, yet 56 ≤ 100, so the span
lanesToTheLeft constructs is in range, contradicting the claim's assertion
that the wrapped count makes lanesToTheLeft an out-of-range span. -/
theorem numLanesToTheLeft_wrap_counterexample :
    c10Step.frontIntersection.lane_description.length <
      c10Step.frontIntersection.lanes.lanes_in_turn +
        c10Step.frontIntersection.lanes.first_lane_from_the_right ∧
    numLanesToTheLeft c10Step = 56 ∧
    numLanesToTheLeft c10Step ≤ c10Step.frontIntersection.lane_description.length := by
  refine ⟨by decide, by decide, by decide⟩

/-- Claim C10 (amended): numLanesToTheLeft computes total −
(lanes_in_turn + first_lane_from_the_right) in unsigned 8-bit LaneID
arithmetic: the result is always in [0, 256) and congruent modulo 2^8 to
size − (lanes_in_turn + first_lane_from_the_right), a wrap rather than a
negative value; under the precondition lanes_in_turn +
first_lane_from_the_right ≤ size ≤ 255 it equals the exact mathematical
difference; and when the sum exceeds the size with a single wrap (sum <
2^8) the result is size + 256 − sum, which exceeds the description length,
so lanesToTheLeft's iterator range is out of range. -/
theorem numLanesToTheLeft_wrap (step : RouteStep) (i : StepIntersection)
    (rest : List StepIntersection) (hfront : step.intersections = i :: rest) :
    (numLanesToTheLeft step < 256 ∧
      (numLanesToTheLeft step : Int) % 256 =
        ((i.lane_description.length : Int) -
          ((i.lanes.lanes_in_turn : Int) + (i.lanes.first_lane_from_the_right : Int))) % 256) ∧
    (i.lanes.lanes_in_turn + i.lanes.first_lane_from_the_right ≤
        i.lane_description.length →
      i.lane_description.length ≤ 255 →
      numLanesToTheLeft step =
        i.lane_description.length -
          (i.lanes.lanes_in_turn + i.lanes.first_lane_from_the_right)) ∧
    (i.lane_description.length <
        i.lanes.lanes_in_turn + i.lanes.first_lane_from_the_right →
      i.lanes.lanes_in_turn + i.lanes.first_lane_from_the_right < 256 →
      numLanesToTheLeft step =
        i.lane_description.length + 256 -
          (i.lanes.lanes_in_turn + i.lanes.first_lane_from_the_right) ∧
      i.lane_description.length < numLanesToTheLeft step) := by
  have hfi : step.frontIntersection = i := by
    simp [RouteStep.frontIntersection, hfront]
  simp only [numLanesToTheLeft, hfi]
  refine ⟨⟨?_, ?_⟩, ?_, ?_⟩
  · omega
  · omega
  · intro h1 h2
    omega
  · intro h1 h2
    constructor
    · omega
    · omega

/-- Claim C10 witness (for the amended claim): a five-lane description with
lanes_in_turn = 3 and first_lane_from_the_right = 4 wraps to 5 + 256 − 7 =
254 lanes to the left, far beyond the five-lane description. -/
theorem numLanesToTheLeft_wrap_witness :
    (numLanesToTheLeft (⟨[⟨⟨3, 4⟩, [1, 2, 3, 4, 5]⟩]⟩ : RouteStep) < 256 ∧
      (numLanesToTheLeft (⟨[⟨⟨3, 4⟩, [1, 2, 3, 4, 5]⟩]⟩ : RouteStep) : Int) % 256 =
        (((⟨⟨3, 4⟩, [1, 2, 3, 4, 5]⟩ : StepIntersection).lane_description.length : Int) -
          (((⟨⟨3, 4⟩, [1, 2, 3, 4, 5]⟩ : StepIntersection).lanes.lanes_in_turn : Int) +
            ((⟨⟨3, 4⟩, [1, 2, 3, 4, 5]⟩ :
              StepIntersection).lanes.first_lane_from_the_right : Int))) % 256) ∧
    ((⟨⟨3, 4⟩, [1, 2, 3, 4, 5]⟩ : StepIntersection).lanes.lanes_in_turn +
        (⟨⟨3, 4⟩, [1, 2, 3, 4, 5]⟩ : StepIntersection).lanes.first_lane_from_the_right ≤
        (⟨⟨3, 4⟩, [1, 2, 3, 4, 5]⟩ : StepIntersection).lane_description.length →
      (⟨⟨3, 4⟩, [1, 2, 3, 4, 5]⟩ : StepIntersection).lane_description.length ≤ 255 →
      numLanesToTheLeft (⟨[⟨⟨3, 4⟩, [1, 2, 3, 4, 5]⟩]⟩ : RouteStep) =
        (⟨⟨3, 4⟩, [1, 2, 3, 4, 5]⟩ : StepIntersection).lane_description.length -
          ((⟨⟨3, 4⟩, [1, 2, 3, 4, 5]⟩ : StepIntersection).lanes.lanes_in_turn +
            (⟨⟨3, 4⟩, [1, 2, 3, 4, 5]⟩ :
              StepIntersection).lanes.first_lane_from_the_right)) ∧
    ((⟨⟨3, 4⟩, [1, 2, 3, 4, 5]⟩ : StepIntersection).lane_description.length <
        (⟨⟨3, 4⟩, [1, 2, 3, 4, 5]⟩ : StepIntersection).lanes.lanes_in_turn +
          (⟨⟨3, 4⟩, [1, 2, 3, 4, 5]⟩ :
            StepIntersection).lanes.first_lane_from_the_right →
      (⟨⟨3, 4⟩, [1, 2, 3, 4, 5]⟩ : StepIntersection).lanes.lanes_in_turn +
          (⟨⟨3, 4⟩, [1, 2, 3, 4, 5]⟩ :
            StepIntersection).lanes.first_lane_from_the_right < 256 →
      numLanesToTheLeft (⟨[⟨⟨3, 4⟩, [1, 2, 3, 4, 5]⟩]⟩ : RouteStep) =
        (⟨⟨3, 4⟩, [1, 2, 3, 4, 5]⟩ : StepIntersection).lane_description.length + 256 -
          ((⟨⟨3, 4⟩, [1, 2, 3, 4, 5]⟩ : StepIntersection).lanes.lanes_in_turn +
            (⟨⟨3, 4⟩, [1, 2, 3, 4, 5]⟩ :
              StepIntersection).lanes.first_lane_from_the_right) ∧
      (⟨⟨3, 4⟩, [1, 2, 3, 4, 5]⟩ : StepIntersection).lane_description.length <
        numLanesToTheLeft (⟨[⟨⟨3, 4⟩, [1, 2, 3, 4, 5]⟩]⟩ : RouteStep)) :=
  numLanesToTheLeft_wrap ⟨[⟨⟨3, 4⟩, [1, 2, 3, 4, 5]⟩]⟩ ⟨⟨3, 4⟩, [1, 2, 3, 4, 5]⟩ [] rfl
